import Mathlib

set_option maxRecDepth 100000

/-!
Verification development for the Product Performance Analysis pipeline
(src/Product_Analysis.py).

The script is a linear pandas pipeline: load a product-sales table, fill
missing numeric cells with the column median and missing categories with
"Unknown", coerce the identifier column to string dtype, derive four metric
columns, then rank rows and roll up by category.

Numeric cells are modelled by an exact idealization of the float domain:
a value is either the missing/NaN sentinel, a signed infinity, or an exact
rational.  Rounding error of IEEE arithmetic is not modelled (products,
sums and quotients are exact), but the special-value behaviour that the
claims are about (NaN propagation, division by zero producing signed
infinities, NaN-skipping aggregation) follows the pandas/numpy semantics
used by the script.  Signed zero is not modelled; all base columns of the
data set are finite-or-missing, so a negative zero never arises in the
pipeline.
-/

/-- Idealized float value: missing/NaN, a signed infinity
(`inf true` is positive infinity), or an exact rational. -/
inductive PFloat where
  | nan : PFloat
  | inf : Bool → PFloat
  | num : ℚ → PFloat
deriving Repr, DecidableEq, Inhabited

namespace PFloat

/-- Multiplication with IEEE special-value rules (exact on finite values). -/
def mul : PFloat → PFloat → PFloat
  | nan, _ => nan
  | _, nan => nan
  | inf s, inf t => inf (s == t)
  | inf s, num q => if q = 0 then nan else inf (s == decide (0 < q))
  | num q, inf s => if q = 0 then nan else inf (s == decide (0 < q))
  | num a, num b => num (a * b)

/-- Subtraction with IEEE special-value rules (exact on finite values). -/
def sub : PFloat → PFloat → PFloat
  | nan, _ => nan
  | _, nan => nan
  | inf s, inf t => if s = t then nan else inf s
  | inf s, num _ => inf s
  | num _, inf s => inf (!s)
  | num a, num b => num (a - b)

/-- Addition with IEEE special-value rules (exact on finite values). -/
def add : PFloat → PFloat → PFloat
  | nan, _ => nan
  | _, nan => nan
  | inf s, inf t => if s = t then inf s else nan
  | inf s, num _ => inf s
  | num _, inf s => inf s
  | num a, num b => num (a + b)

/-- Division with IEEE special-value rules: a nonzero finite value divided
by zero is a signed infinity, zero divided by zero is NaN.  This is what
numpy does for `Series / Series`, with a warning but no exception. -/
def div : PFloat → PFloat → PFloat
  | nan, _ => nan
  | _, nan => nan
  | inf _, inf _ => nan
  | inf s, num q => if 0 ≤ q then inf s else inf (!s)
  | num _, inf _ => num 0
  | num a, num b =>
    if b = 0 then (if a = 0 then nan else if 0 < a then inf true else inf false)
    else num (a / b)

/-- Boolean NaN test (pandas `isna` on a float cell). -/
def isNanB : PFloat → Bool
  | nan => true
  | _ => false

/-- Extract the rational payload of a finite value. -/
def toQ? : PFloat → Option ℚ
  | num q => some q
  | _ => none

end PFloat

/-- Raw record as loaded by `pd.read_csv` (line 17): the columns of the
product-sales table.  A missing numeric cell is `PFloat.nan`, a missing
Category is `none`.  `productId` holds the textual content of the
identifier cell; the loader's dtype inference for that column is modelled
separately by `coerceIdentifier`. -/
structure Row where
  productId : String
  productName : String
  category : Option String
  subcategory : String
  unitsSold : PFloat
  unitPrice : PFloat
  costPerUnit : PFloat
  customerRating : PFloat
  inventory : PFloat
deriving Repr, DecidableEq, Inhabited

/-- Record after Step 2 cleaning: Category is always present
(missing replaced by "Unknown"). -/
structure CleanRow where
  productId : String
  productName : String
  category : String
  subcategory : String
  unitsSold : PFloat
  unitPrice : PFloat
  costPerUnit : PFloat
  customerRating : PFloat
  inventory : PFloat
deriving Repr, DecidableEq, Inhabited

/-- Record with the four derived metric columns of lines 42-45. -/
structure EnrichedRow where
  productId : String
  productName : String
  category : String
  subcategory : String
  unitsSold : PFloat
  unitPrice : PFloat
  costPerUnit : PFloat
  customerRating : PFloat
  inventory : PFloat
  totalRevenue : PFloat
  totalProfit : PFloat
  profitMargin : PFloat
  inventoryTurnover : PFloat
deriving Repr, DecidableEq, Inhabited

/-- Insert a rational into a sorted list (ascending). -/
def insertSorted (a : ℚ) : List ℚ → List ℚ
  | [] => [a]
  | b :: l => if a ≤ b then a :: b :: l else b :: insertSorted a l

/-- Sort a list of rationals ascending (the sorted order that
numpy uses to take the median). -/
def sortQ (l : List ℚ) : List ℚ := l.foldr insertSorted []

/-- Median of a list of rationals, pandas style: sort, take the middle
element for odd length, the mean of the two middle elements for even
length, NaN for the empty list. -/
def medianQ (l : List ℚ) : PFloat :=
  let s := sortQ l
  let n := s.length
  if n = 0 then .nan
  else if n % 2 = 1 then .num (s.getD (n / 2) 0)
  else .num ((s.getD (n / 2 - 1) 0 + s.getD (n / 2) 0) / 2)

/-- Median of a column, skipping missing cells (`Series.median`, line 31).
The raw columns it is applied to are finite-or-missing. -/
def colMedian (xs : List PFloat) : PFloat :=
  medianQ (xs.filterMap PFloat.toQ?)

/-- Replace a missing cell by the fill value (`Series.fillna`, line 32).
Filling with NaN (the median of an all-missing column) is a no-op. -/
def fillna (m : PFloat) : PFloat → PFloat
  | .nan => m
  | x => x

/-- One iteration of the fill loop of lines 30-32 applied to a column:
compute the column's median over present values and replace the missing
entries with it. -/
def fillColumn (xs : List PFloat) : List PFloat :=
  xs.map (fillna (colMedian xs))

/-- Step 2 cleaning of one row, given the two column medians: fill
Units Sold and Customer Rating (lines 30-32), fill Category with
"Unknown" (line 35).  The `astype('string')` of line 39 maps each
identifier cell to its textual value, which `productId` already holds. -/
def cleanRow (mu mr : PFloat) (r : Row) : CleanRow :=
  { productId := r.productId
    productName := r.productName
    category := r.category.getD "Unknown"
    subcategory := r.subcategory
    unitsSold := fillna mu r.unitsSold
    unitPrice := r.unitPrice
    costPerUnit := r.costPerUnit
    customerRating := fillna mr r.customerRating
    inventory := r.inventory }

/-- Step 2 cleaning of the whole table (lines 30-39).  The medians are
taken over the original columns; the two fills are independent, so this
equals the sequential loop of the source. -/
def cleanTable (t : List Row) : List CleanRow :=
  let mu := colMedian (t.map (·.unitsSold))
  let mr := colMedian (t.map (·.customerRating))
  t.map (cleanRow mu mr)

/-- Metric derivation of lines 42-45:
Total Revenue = Units Sold * Unit Price,
Total Profit = Units Sold * (Unit Price - Cost Per Unit),
Profit Margin (%) = (Total Profit / Total Revenue) * 100,
Inventory Turnover = Units Sold / Inventory. -/
def deriveMetrics (r : CleanRow) : EnrichedRow :=
  let rev := r.unitsSold.mul r.unitPrice
  let prof := r.unitsSold.mul (r.unitPrice.sub r.costPerUnit)
  { productId := r.productId
    productName := r.productName
    category := r.category
    subcategory := r.subcategory
    unitsSold := r.unitsSold
    unitPrice := r.unitPrice
    costPerUnit := r.costPerUnit
    customerRating := r.customerRating
    inventory := r.inventory
    totalRevenue := rev
    totalProfit := prof
    profitMargin := (prof.div rev).mul (.num 100)
    inventoryTurnover := r.unitsSold.div r.inventory }

/-- The enriched table of Step 2: cleaning followed by metric derivation. -/
def enrich (t : List Row) : List EnrichedRow :=
  (cleanTable t).map deriveMetrics

/-- The whole Step 1-2 lifecycle: `df = df_raw.copy()` (line 26) gives the
working table its own value, the in-place fills and column insertions act
on that copy only, and `df_raw` is never written again.  The pair is
(final `df_raw`, final `df`). -/
def pipelineRun (raw : List Row) : List Row × List EnrichedRow :=
  let df := raw
  (raw, enrich df)

/-!
Ranking (Step 3): `df.sort_values('Total Revenue', ascending=False).head(10)`
(line 66).  Pandas `sort_values` computes `nargsort` on the key column:
missing keys are masked out and appended at the end; for a descending sort
the present keys and their indices are reversed, argsorted ascending with
numpy's default `quicksort` kernel, and the resulting indexer reversed.
Numpy's "quicksort" is an introsort: median-of-3 quicksort that switches to
insertion sort on segments of at most 16 elements and to heapsort past the
depth limit 2*msb(n).  It is not stable, so the relative order of equal
keys in the sorted output is an artifact of the partition scheme.

The kernel below is a faithful transcription of numpy's
`aquicksort` / `aheapsort` (npysort/quicksort.c.src, npysort/heapsort.c.src):
an index list `t` is permuted while comparisons read the value list `v`.
The explicit work stack of the C code is realized by recursion (the larger
partition, pushed in C, is the partition processed second here, and the
shared depth counter is threaded in that order); the bounded loops use a
fuel argument large enough to never run out.
-/

/-- Value of the index list entry `i`, read through the value list
(`v[tosort[i]]` in the C kernel). -/
def atv (v : List ℚ) (t : List Nat) (i : Nat) : ℚ :=
  v.getD (t.getD i 0) 0

/-- Swap two entries of the index list (`INTP_SWAP`). -/
def aswap (t : List Nat) (i j : Nat) : List Nat :=
  (t.set i (t.getD j 0)).set j (t.getD i 0)

/-- Inner shift loop of the kernel's insertion sort: move entry `vi`
(value `vp`) left from position `j` while its value is less than its
predecessor's, shifting entries right. -/
def insertGo (v : List ℚ) (vp : ℚ) (vi : Nat) : List Nat → Nat → Nat → Nat → List Nat
  | t, _, j, 0 => t.set j vi
  | t, lo, j, fuel + 1 =>
    if lo < j ∧ vp < atv v t (j - 1) then
      insertGo v vp vi (t.set j (t.getD (j - 1) 0)) lo (j - 1) fuel
    else t.set j vi

/-- Insert entry at position `i` into the sorted segment `[lo, i)`. -/
def insertOne (v : List ℚ) (t : List Nat) (lo i : Nat) : List Nat :=
  insertGo v (atv v t i) (t.getD i 0) t lo i (i + 1)

/-- Insertion sort of the segment `[lo, hi]` (both inclusive), the small-
segment base case of the introsort; stable because the shift comparison is
strict. -/
def insSortSeg (v : List ℚ) (t : List Nat) (lo hi : Nat) : List Nat :=
  (List.range' (lo + 1) (hi - lo)).foldl (fun t i => insertOne v t lo i) t

/-- Heap accessor with the kernel's 1-based offset (`a = tosort - 1`). -/
def haGet (t : List Nat) (lo k : Nat) : Nat := t.getD (lo + k - 1) 0

/-- Heap mutator with the kernel's 1-based offset. -/
def haSet (t : List Nat) (lo k : Nat) (x : Nat) : List Nat := t.set (lo + k - 1) x

/-- Sift-down loop of `aheapsort`: walk entry `tmpIdx` down the heap of
size `n` starting at node `i` with child `j`, then store it. -/
def siftGo (v : List ℚ) (lo : Nat) (tmpIdx : Nat) : List Nat → Nat → Nat → Nat → Nat → List Nat
  | t, i, _, _, 0 => haSet t lo i tmpIdx
  | t, i, j, n, fuel + 1 =>
    if j ≤ n then
      let j := if j < n ∧ v.getD (haGet t lo j) 0 < v.getD (haGet t lo (j + 1)) 0 then j + 1 else j
      if v.getD tmpIdx 0 < v.getD (haGet t lo j) 0 then
        siftGo v lo tmpIdx (haSet t lo i (haGet t lo j)) j (2 * j) n fuel
      else haSet t lo i tmpIdx
    else haSet t lo i tmpIdx

/-- Heapsort of the segment `[lo, hi]`, the depth-limit fallback of the
introsort (`aheapsort`): heapify, then repeatedly swap the root with the
last element and sift down. -/
def heapSortSeg (v : List ℚ) (t : List Nat) (lo hi : Nat) : List Nat :=
  let n := hi + 1 - lo
  let t := (List.range (n / 2)).reverse.foldl
    (fun t k =>
      let l := k + 1
      siftGo v lo (haGet t lo l) t l (2 * l) n (n + 2)) t
  (List.range (n - 1)).foldl
    (fun t step =>
      let m := n - step
      let tmp := haGet t lo m
      let t := haSet t lo m (haGet t lo 1)
      siftGo v lo tmp t 1 2 (m - 1) (n + 2)) t

/-- Upward partition scan: `do ++pi; while (v[*pi] < vp)`. -/
def scanUp (v : List ℚ) (t : List Nat) (vp : ℚ) : Nat → Nat → Nat
  | i, 0 => i + 1
  | i, fuel + 1 =>
    let i := i + 1
    if atv v t i < vp then scanUp v t vp i fuel else i

/-- Downward partition scan: `do --pj; while (vp < v[*pj])`. -/
def scanDown (v : List ℚ) (t : List Nat) (vp : ℚ) : Nat → Nat → Nat
  | j, 0 => j - 1
  | j, fuel + 1 =>
    let j := j - 1
    if vp < atv v t j then scanDown v t vp j fuel else j

/-- Hoare-style partition loop of the introsort; returns the permuted
index list and the final `pi`. -/
def partLoop (v : List ℚ) (vp : ℚ) : List Nat → Nat → Nat → Nat → List Nat × Nat
  | t, pi, _, 0 => (t, pi)
  | t, pi, pj, fuel + 1 =>
    let pi := scanUp v t vp pi (v.length + 2)
    let pj := scanDown v t vp pj (v.length + 2)
    if pj ≤ pi then (t, pi)
    else partLoop v vp (aswap t pi pj) pi pj fuel

/-- Main introsort recursion on the segment `[lo, hi]` (`aquicksort`):
partition while the segment is longer than 16 and the depth budget lasts,
switch to insertion sort or heapsort otherwise.  Returns the permuted
index list and the remaining depth budget. -/
def introLoop (v : List ℚ) : List Nat → Nat → Nat → Int → Nat → List Nat × Int
  | t, _, _, depth, 0 => (t, depth)
  | t, lo, hi, depth, fuel + 1 =>
    if hi ≤ lo + 15 then (insSortSeg v t lo hi, depth)
    else if depth < 0 then (heapSortSeg v t lo hi, depth)
    else
      let depth := depth - 1
      let pm := lo + (hi - lo) / 2
      let t := if atv v t pm < atv v t lo then aswap t pm lo else t
      let t := if atv v t hi < atv v t pm then aswap t hi pm else t
      let t := if atv v t pm < atv v t lo then aswap t pm lo else t
      let vp := atv v t pm
      let t := aswap t pm (hi - 1)
      let p := partLoop v vp t lo (hi - 1) (hi - lo + 2)
      let t := aswap p.1 p.2 (hi - 1)
      let pi := p.2
      if pi - lo < hi - pi then
        let q := introLoop v t lo (pi - 1) depth fuel
        introLoop v q.1 (pi + 1) hi q.2 fuel
      else
        let q := introLoop v t (pi + 1) hi depth fuel
        introLoop v q.1 lo (pi - 1) q.2 fuel

/-- Numpy `argsort(kind='quicksort')` of a list of rationals: introsort of
the identity index list, with depth budget `2 * msb n`. -/
def npyArgsort (v : List ℚ) : List Nat :=
  (introLoop v (List.range v.length) 0 (v.length - 1)
    ((2 * Nat.log2 v.length : Nat) : Int) (v.length + 2)).1

/-- Pandas `nargsort` for a descending sort with `na_position='last'`
(what `sort_values(key, ascending=False)` computes): mask the missing
keys, reverse the present keys and their indices, argsort ascending with
the numpy kernel, reverse the indexer, and append the missing-key indices
in original order. -/
def nargsortDesc (keys : List (Option ℚ)) : List Nat :=
  let idx := List.range keys.length
  let nonNanIdx := idx.filter (fun i => (keys.getD i none).isSome)
  let nanIdx := idx.filter (fun i => (keys.getD i none).isNone)
  let revIdx := nonNanIdx.reverse
  let revVals := revIdx.map (fun i => (keys.getD i none).getD 0)
  let kernel := npyArgsort revVals
  let indexer := kernel.map (fun k => revIdx.getD k 0)
  indexer.reverse ++ nanIdx

/-- Total Revenue sort key of an enriched row, as pandas masks it:
`some` for a present (finite) value, `none` for a missing one.  The
revenue column is finite-or-missing, never infinite. -/
def revQ (r : EnrichedRow) : Option ℚ := r.totalRevenue.toQ?

/-- The concrete `df.sort_values('Total Revenue', ascending=False)` of
line 66, with numpy's default quicksort kernel. -/
def sortValuesDescExe (t : List EnrichedRow) : List EnrichedRow :=
  (nargsortDesc (t.map revQ)).map (fun i => t.getD i default)

/-- The concrete `top_revenue` slice of line 66: sort descending by
Total Revenue, keep the first 10 rows. -/
def topRevenueExe (t : List EnrichedRow) : List EnrichedRow :=
  (sortValuesDescExe t).take 10

/-- Descending key comparison with missing keys sorted last, as a Boolean:
`optGEb a b` says a row with key `a` may precede a row with key `b`. -/
def optGEb : Option ℚ → Option ℚ → Bool
  | _, none => true
  | none, some _ => false
  | some a, some b => decide (b ≤ a)

/-- Propositional form of `optGEb`. -/
def optGE (a b : Option ℚ) : Prop := optGEb a b = true

instance optGE.decidable (a b : Option ℚ) : Decidable (optGE a b) :=
  inferInstanceAs (Decidable (optGEb a b = true))

/-- What `sort_values('Total Revenue', ascending=False)` guarantees about
its output: a permutation of the input whose key column is non-increasing
with missing keys last.  The tie order among equal keys is an unspecified
artifact of numpy's unstable quicksort, so the embedding is this relation;
`sortValuesDescExe` is one concrete outcome of it. -/
def SortValuesDescRel (t out : List EnrichedRow) : Prop :=
  out.Perm t ∧ (out.map revQ).Pairwise optGE

/-- The `top_revenue` slice of line 66 as a relation: the first 10 rows of
an admissible descending sort of the enriched table. -/
def TopRevenueRel (t out : List EnrichedRow) : Prop :=
  ∃ s, SortValuesDescRel t s ∧ out = s.take 10

/-!
Category rollup (Step 3C, lines 75-79):
`df.groupby('Category').agg(Total_Revenue=('Total Revenue','sum'),
Total_Profit=('Total Profit','sum'), Avg_Rating=('Customer Rating','mean'))
.sort_values('Total_Revenue', ascending=False).round(2)`.
Grouping collects the rows of each distinct Category value; the `sum`
aggregation skips missing cells (empty → 0), `mean` divides the
NaN-skipping sum by the count of present cells (no present cell → NaN).
The rollup is sorted by the unrounded Total_Revenue and every numeric
field is then rounded to 2 decimal places with numpy's half-even rounding.
-/

/-- One row of `category_performance`. -/
structure RollupRow where
  category : String
  Total_Revenue : PFloat
  Total_Profit : PFloat
  Avg_Rating : PFloat
deriving Repr, DecidableEq, Inhabited

/-- Pandas `sum` aggregation: add the present cells, starting from 0. -/
def nansum (xs : List PFloat) : PFloat :=
  xs.foldl (fun a x => if x.isNanB then a else a.add x) (.num 0)

/-- Number of present cells of a column (pandas `count`). -/
def countPresent (xs : List PFloat) : Nat :=
  (xs.filter (fun x => !x.isNanB)).length

/-- Pandas `mean` aggregation: NaN-skipping sum over the count of present
cells; with no present cell this is 0/0 = NaN, as pandas returns. -/
def nanmean (xs : List PFloat) : PFloat :=
  (nansum xs).div (.num (countPresent xs))

/-- The rows of one category group. -/
def groupRows (t : List EnrichedRow) (c : String) : List EnrichedRow :=
  t.filter (fun r => r.category == c)

/-- The aggregated (unrounded) rollup row of one category. -/
def mkRollup (t : List EnrichedRow) (c : String) : RollupRow :=
  let g := groupRows t c
  { category := c
    Total_Revenue := nansum (g.map (·.totalRevenue))
    Total_Profit := nansum (g.map (·.totalProfit))
    Avg_Rating := nanmean (g.map (·.customerRating)) }

/-- The distinct Category values of the enriched table.  `groupby` emits
them in sorted key order, but the rollup is re-sorted by revenue, so only
the set of keys matters and first-occurrence order is used here. -/
def categoriesOf (t : List EnrichedRow) : List String :=
  (t.map (·.category)).dedup

/-- The unsorted, unrounded rollup: one aggregated row per distinct
Category value. -/
def rollupRows (t : List EnrichedRow) : List RollupRow :=
  (categoriesOf t).map (mkRollup t)

/-- Round a rational to the nearest integer, ties to even (numpy
`round` / IEEE roundTiesToEven, exact on the rational idealization). -/
def rhe (x : ℚ) : ℤ :=
  if x - ⌊x⌋ < 1 / 2 then ⌊x⌋
  else if 1 / 2 < x - ⌊x⌋ then ⌊x⌋ + 1
  else if Even ⌊x⌋ then ⌊x⌋ else ⌊x⌋ + 1

/-- Round a rational to 2 decimal places, ties to even (`DataFrame.round(2)`). -/
def round2Q (q : ℚ) : ℚ := (rhe (q * 100) : ℚ) / 100

/-- Round a cell to 2 decimal places; NaN and infinities pass through. -/
def PFloat.round2 : PFloat → PFloat
  | .num q => .num (round2Q q)
  | x => x

/-- Apply `round(2)` to the numeric fields of a rollup row. -/
def roundRollup (r : RollupRow) : RollupRow :=
  { r with
    Total_Revenue := r.Total_Revenue.round2
    Total_Profit := r.Total_Profit.round2
    Avg_Rating := r.Avg_Rating.round2 }

/-- Total_Revenue sort key of a rollup row. -/
def rollupRevQ (r : RollupRow) : Option ℚ := r.Total_Revenue.toQ?

/-- The `category_performance` table of lines 75-79 as a relation on the
enriched table: some ordering `s` of the per-category rollup rows that is
non-increasing in (unrounded) Total_Revenue, with `round(2)` applied
after the sort.  The tie order among equal revenues is an unspecified
artifact of numpy's unstable quicksort, exactly as for `sort_values`. -/
def CategoryPerformanceRel (t : List EnrichedRow) (out : List RollupRow) : Prop :=
  ∃ s : List RollupRow, s.Perm (rollupRows t) ∧ (s.map rollupRevQ).Pairwise optGE ∧
    out = s.map roundRollup

/-!
Identifier coercion (lines 17 and 39).  `pd.read_csv` type-infers every
column before line 39 runs, so `astype('string')` renders whatever the
loader stored:
- a column whose cells are all optionally-signed int64 literals is stored
  as int64 and rendered in normalized decimal form (modelled exactly);
- a column containing a cell that cannot be read as a number, a boolean
  or a missing-value marker is kept as object dtype, so the cell strings
  are preserved verbatim (modelled exactly; the `mightCoerce` test below
  over-approximates what the loader can coerce, so the verbatim branch is
  only taken when the loader surely keeps text);
- every other column (float-parseable cells such as "1.50", integer cells
  with a missing cell among them, values outside int64, booleans, ...)
  is stored as float64/uint64/bool, and its rendering — "1.50" becomes
  "1.5", "007" next to a missing cell becomes "7.0" — goes through binary
  floating point formatting that the exact-rational development does not
  model: the embedding abstains (`none`) on those columns rather than
  asserting anything about them.
-/

@[simp] lemma deriveMetrics_productId (c : CleanRow) : (deriveMetrics c).productId = c.productId := rfl

@[simp] lemma deriveMetrics_category (c : CleanRow) : (deriveMetrics c).category = c.category := rfl

@[simp] lemma deriveMetrics_unitsSold (c : CleanRow) : (deriveMetrics c).unitsSold = c.unitsSold := rfl

@[simp] lemma deriveMetrics_unitPrice (c : CleanRow) : (deriveMetrics c).unitPrice = c.unitPrice := rfl

@[simp] lemma deriveMetrics_costPerUnit (c : CleanRow) : (deriveMetrics c).costPerUnit = c.costPerUnit := rfl

@[simp] lemma deriveMetrics_customerRating (c : CleanRow) : (deriveMetrics c).customerRating = c.customerRating := rfl

@[simp] lemma deriveMetrics_inventory (c : CleanRow) : (deriveMetrics c).inventory = c.inventory := rfl

@[simp] lemma deriveMetrics_totalRevenue (c : CleanRow) :
    (deriveMetrics c).totalRevenue = c.unitsSold.mul c.unitPrice := rfl

@[simp] lemma deriveMetrics_totalProfit (c : CleanRow) :
    (deriveMetrics c).totalProfit = c.unitsSold.mul (c.unitPrice.sub c.costPerUnit) := rfl

@[simp] lemma deriveMetrics_profitMargin (c : CleanRow) :
    (deriveMetrics c).profitMargin =
      ((c.unitsSold.mul (c.unitPrice.sub c.costPerUnit)).div
        (c.unitsSold.mul c.unitPrice)).mul (.num 100) := rfl

@[simp] lemma deriveMetrics_inventoryTurnover (c : CleanRow) :
    (deriveMetrics c).inventoryTurnover = c.unitsSold.div c.inventory := rfl

@[simp] lemma PFloat.num_mul_num (a b : ℚ) : (PFloat.num a).mul (.num b) = .num (a * b) := rfl

@[simp] lemma PFloat.num_sub_num (a b : ℚ) : (PFloat.num a).sub (.num b) = .num (a - b) := rfl

/-- Evaluate a finite-over-finite division. -/
lemma PFloat.num_div_num (a b : ℚ) :
    (PFloat.num a).div (.num b) =
      if b = 0 then (if a = 0 then .nan else if 0 < a then .inf true else .inf false)
      else .num (a / b) := rfl

/-- Evaluate the `* 100` of the margin column on each shape of quotient. -/
lemma div_mul_hundred (x y : ℚ) :
    ((PFloat.num x).div (PFloat.num y)).mul (PFloat.num 100) =
      if y = 0 then
        (if x = 0 then PFloat.nan else if 0 < x then PFloat.inf true else PFloat.inf false)
      else PFloat.num (100 * x / y) := by
  rw [PFloat.num_div_num]
  by_cases hy : y = 0
  · by_cases hx : x = 0
    · simp [hy, hx, PFloat.mul]
    · rcases lt_or_gt_of_ne hx with h | h
      · simp only [hy, if_pos rfl, if_neg hx, if_neg (not_lt.mpr h.le)]
        simp [PFloat.mul]
      · simp only [hy, if_pos rfl, if_neg hx, if_pos h]
        simp [PFloat.mul]
  · simp only [if_neg hy, PFloat.num_mul_num]
    congr 1
    ring

/-- Membership in the enriched table comes from a cleaned row. -/
lemma mem_enrich {t : List Row} {r : EnrichedRow} (h : r ∈ enrich t) :
    ∃ cr, cr ∈ cleanTable t ∧ deriveMetrics cr = r := by
  simpa [enrich] using List.mem_map.mp h

/-- Behaviour of the Profit Margin (%) column of a row whose post-fill
base fields are the finite values u (Units Sold), p (Unit Price) and
c (Cost Per Unit): NaN exactly when both Total Revenue and Total Profit
are zero, a signed infinity when only Total Revenue is zero, and
100 * Total Profit / Total Revenue otherwise. -/
def MarginSpec (r : EnrichedRow) (u p c : ℚ) : Prop :=
  (r.profitMargin = .nan ↔ (u * p = 0 ∧ u * (p - c) = 0))
  ∧ (u * p = 0 → 0 < u * (p - c) → r.profitMargin = .inf true)
  ∧ (u * p = 0 → u * (p - c) < 0 → r.profitMargin = .inf false)
  ∧ (u * p ≠ 0 → r.profitMargin = .num (100 * (u * (p - c)) / (u * p)))

/-- C1 (amended): for every row of the enriched table with finite post-fill
base fields, Profit Margin (%) is NaN iff Total Revenue = 0 AND Total
Profit = 0; when Total Revenue = 0 and Total Profit is nonzero it is the
signed infinity matching the sign of Total Profit, not NaN; otherwise it
equals 100 * Total Profit / Total Revenue. -/
theorem C1_margin_amended (t : List Row) (r : EnrichedRow) (hr : r ∈ enrich t)
    (u p c : ℚ) (hu : r.unitsSold = .num u) (hp : r.unitPrice = .num p)
    (hc : r.costPerUnit = .num c) : MarginSpec r u p c := by
  obtain ⟨cr, -, rfl⟩ := mem_enrich hr
  simp only [deriveMetrics_unitsSold, deriveMetrics_unitPrice, deriveMetrics_costPerUnit] at hu hp hc
  unfold MarginSpec
  simp only [deriveMetrics_profitMargin, hu, hp, hc, PFloat.num_sub_num, PFloat.num_mul_num,
    div_mul_hundred]
  by_cases h0 : u * p = 0
  · rcases lt_trichotomy (u * (p - c)) 0 with hpr | hpr | hpr
    · simp only [if_pos h0, if_neg hpr.ne, if_neg (not_lt.mpr hpr.le)]
      refine ⟨by simp [h0, hpr.ne], ?_, fun _ _ => trivial, fun h => absurd h0 h⟩
      intro _ h
      exact absurd h (not_lt.mpr hpr.le)
    · simp only [if_pos h0, if_pos hpr]
      refine ⟨by simp [h0, hpr], ?_, ?_, fun h => absurd h0 h⟩
      · intro _ h
        rw [hpr] at h
        exact absurd h (lt_irrefl 0)
      · intro _ h
        rw [hpr] at h
        exact absurd h (lt_irrefl 0)
    · simp only [if_pos h0, if_neg (ne_of_gt hpr), if_pos hpr]
      refine ⟨by simp [h0, ne_of_gt hpr], fun _ _ => trivial, ?_, fun h => absurd h0 h⟩
      intro _ h
      exact absurd h (not_lt.mpr hpr.le)
  · simp only [if_neg h0]
    exact ⟨by simp [h0], fun h => absurd h h0, fun h => absurd h h0, fun _ => trivial⟩

/-- Shared witness input row: a fully present row with
Units Sold 10, Unit Price 5, Cost Per Unit 2, Customer Rating 4, Inventory 2. -/
def wRow : Row :=
  { productId := "P1", productName := "N", category := some "C", subcategory := "S"
    unitsSold := .num 10, unitPrice := .num 5, costPerUnit := .num 2
    customerRating := .num 4, inventory := .num 2 }

/-- Enriched form of `wRow`: Total Revenue 50, Total Profit 30,
Profit Margin 60 %, Inventory Turnover 5. -/
def wEnr : EnrichedRow :=
  { productId := "P1", productName := "N", category := "C", subcategory := "S"
    unitsSold := .num 10, unitPrice := .num 5, costPerUnit := .num 2
    customerRating := .num 4, inventory := .num 2
    totalRevenue := .num 50, totalProfit := .num 30
    profitMargin := .num 60, inventoryTurnover := .num 5 }

/-- C1 amended witness: the margin characterization evaluated on `wRow`. -/
theorem C1_margin_amended_witness : MarginSpec wEnr 10 5 2 :=
  C1_margin_amended [wRow] wEnr (by with_unfolding_all decide) 10 5 2 (by with_unfolding_all decide) (by with_unfolding_all decide) (by with_unfolding_all decide)

/-- Counterexample input for C1: Units Sold 10, Unit Price 0,
Cost Per Unit 2, so Total Revenue = 0 but Total Profit = -20. -/
def ceMarginRow : Row :=
  { productId := "P1", productName := "N", category := some "C", subcategory := "S"
    unitsSold := .num 10, unitPrice := .num 0, costPerUnit := .num 2
    customerRating := .num 5, inventory := .num 1 }

/-- C1 counterexample: on `ceMarginRow` the enriched row has
Total Revenue = 0, yet Profit Margin (%) is negative infinity, not NaN —
the claim "NaN iff Total Revenue = 0" fails in the only-if-zero direction. -/
theorem C1_margin_counterexample :
    (enrich [ceMarginRow]).map (·.totalRevenue) = [PFloat.num 0]
    ∧ (enrich [ceMarginRow]).map (·.profitMargin) = [PFloat.inf false]
    ∧ PFloat.inf false ≠ PFloat.nan := by with_unfolding_all decide

/-- Behaviour of the Inventory Turnover column of a row whose post-fill
Units Sold and Inventory are the finite values u and v: it is the column
quotient, finite when v is nonzero, and at v = 0 it is NaN exactly when
u = 0 and a signed infinity otherwise. -/
def TurnoverSpec (r : EnrichedRow) (u v : ℚ) : Prop :=
  r.inventoryTurnover = r.unitsSold.div r.inventory
  ∧ (v ≠ 0 → r.inventoryTurnover = .num (u / v))
  ∧ (v = 0 → ((r.inventoryTurnover = .nan ↔ u = 0)
      ∧ (0 < u → r.inventoryTurnover = .inf true)
      ∧ (u < 0 → r.inventoryTurnover = .inf false)))

/-- C4 (amended): Inventory Turnover equals Units Sold / Inventory for
every enriched row, but at Inventory = 0 the result is NaN only when
Units Sold = 0; for nonzero Units Sold it is a signed infinity, not the
claimed NaN sentinel. -/
theorem C4_turnover_amended (t : List Row) (r : EnrichedRow) (hr : r ∈ enrich t)
    (u v : ℚ) (hu : r.unitsSold = .num u) (hv : r.inventory = .num v) :
    TurnoverSpec r u v := by
  obtain ⟨cr, -, rfl⟩ := mem_enrich hr
  simp only [deriveMetrics_unitsSold, deriveMetrics_inventory] at hu hv
  unfold TurnoverSpec
  simp only [deriveMetrics_inventoryTurnover, deriveMetrics_unitsSold, deriveMetrics_inventory,
    hu, hv, PFloat.num_div_num]
  refine ⟨trivial, fun hvne => by simp [if_neg hvne], fun hv0 => ?_⟩
  subst hv0
  simp only [if_pos rfl]
  refine ⟨?_, fun h => by simp [ne_of_gt h, h], fun h => by simp [h.ne, not_lt.mpr h.le]⟩
  by_cases hu0 : u = 0
  · simp [hu0]
  · rcases lt_or_gt_of_ne hu0 with h | h
    · simp [hu0, not_lt.mpr h.le, hu0]
    · simp [hu0, h]

/-- C4 amended witness: the turnover characterization evaluated on `wRow`. -/
theorem C4_turnover_amended_witness : TurnoverSpec wEnr 10 2 :=
  C4_turnover_amended [wRow] wEnr (by with_unfolding_all decide) 10 2 (by with_unfolding_all decide) (by with_unfolding_all decide)

/-- Counterexample input for C4: Units Sold 5 and Inventory 0. -/
def ceTurnoverRow : Row :=
  { productId := "P1", productName := "N", category := some "C", subcategory := "S"
    unitsSold := .num 5, unitPrice := .num 3, costPerUnit := .num 1
    customerRating := .num 5, inventory := .num 0 }

/-- C4 counterexample: on `ceTurnoverRow` the enriched row has
Inventory = 0, yet Inventory Turnover is positive infinity, not NaN —
the claim "NaN whenever Inventory = 0" fails. -/
theorem C4_turnover_counterexample :
    (enrich [ceTurnoverRow]).map (·.inventory) = [PFloat.num 0]
    ∧ (enrich [ceTurnoverRow]).map (·.inventoryTurnover) = [PFloat.inf true]
    ∧ PFloat.inf true ≠ PFloat.nan := by with_unfolding_all decide

/-- Behaviour of the Total Revenue column: it is exactly the product of
the post-fill Units Sold and Unit Price cells; on finite cells it is an
exact rational product, hence within the 1e-9 tolerance of the claim. -/
def RevenueSpec (r : EnrichedRow) : Prop :=
  r.totalRevenue = r.unitsSold.mul r.unitPrice
  ∧ ∀ a b : ℚ, r.unitsSold = .num a → r.unitPrice = .num b →
      ∃ q : ℚ, r.totalRevenue = .num q ∧ |q - a * b| ≤ 1 / 1000000000

/-- C2: for every row of the enriched table, Total Revenue equals
Units Sold x Unit Price, where Units Sold is the post-fill value of the
row; on finite cells the product is exact, so it is within the claimed
1e-9 tolerance. -/
theorem C2_total_revenue (t : List Row) (r : EnrichedRow) (hr : r ∈ enrich t) :
    RevenueSpec r := by
  obtain ⟨cr, -, rfl⟩ := mem_enrich hr
  refine ⟨deriveMetrics_totalRevenue cr, fun a b ha hb => ?_⟩
  simp only [deriveMetrics_unitsSold, deriveMetrics_unitPrice] at ha hb
  refine ⟨a * b, ?_, by simp⟩
  simp [ha, hb]

/-- C2 witness: the revenue property evaluated on `wRow`. -/
theorem C2_total_revenue_witness : RevenueSpec wEnr :=
  C2_total_revenue [wRow] wEnr (by with_unfolding_all decide)

/-- Behaviour of the Total Profit column on a row with finite post-fill
base fields: it is the column Units Sold x (Unit Price - Cost Per Unit)
of line 43, and it satisfies the algebraic relation
Total Profit = Total Revenue - Units Sold x Cost Per Unit. -/
def ProfitSpec (r : EnrichedRow) : Prop :=
  r.totalProfit = r.unitsSold.mul (r.unitPrice.sub r.costPerUnit)
  ∧ r.totalProfit = r.totalRevenue.sub (r.unitsSold.mul r.costPerUnit)

/-- C3: for every row of the enriched table with finite post-fill base
fields, the Total Profit column computed as
Units Sold x (Unit Price - Cost Per Unit) equals
Total Revenue - Units Sold x Cost Per Unit (the rational idealization is
exact, distributivity holding on the nose). -/
theorem C3_total_profit (t : List Row) (r : EnrichedRow) (hr : r ∈ enrich t)
    (u p c : ℚ) (hu : r.unitsSold = .num u) (hp : r.unitPrice = .num p)
    (hc : r.costPerUnit = .num c) : ProfitSpec r := by
  obtain ⟨cr, -, rfl⟩ := mem_enrich hr
  simp only [deriveMetrics_unitsSold, deriveMetrics_unitPrice, deriveMetrics_costPerUnit]
    at hu hp hc
  refine ⟨deriveMetrics_totalProfit cr, ?_⟩
  simp only [deriveMetrics_totalProfit, deriveMetrics_totalRevenue, deriveMetrics_unitsSold,
    deriveMetrics_unitPrice, deriveMetrics_costPerUnit, hu, hp, hc, PFloat.num_sub_num,
    PFloat.num_mul_num]
  congr 1
  ring

/-- C3 witness: the profit relation evaluated on `wRow`. -/
theorem C3_total_profit_witness : ProfitSpec wEnr :=
  C3_total_profit [wRow] wEnr (by with_unfolding_all decide) 10 5 2
    (by with_unfolding_all decide) (by with_unfolding_all decide) (by with_unfolding_all decide)

/-- C8: the pipeline run leaves the raw table unchanged (the working copy
of line 26 has its own value, so the in-place cleaning never touches
`df_raw`), and the enriched table has the same row count and the same
Product ID in every position as the raw input. -/
theorem C8_frame_preservation (raw : List Row) :
    (pipelineRun raw).1 = raw
    ∧ (pipelineRun raw).2.length = raw.length
    ∧ (pipelineRun raw).2.map (·.productId) = raw.map (·.productId) := by
  refine ⟨rfl, ?_, ?_⟩
  · simp [pipelineRun, enrich, cleanTable]
  · simp [pipelineRun, enrich, cleanTable, List.map_map, Function.comp, cleanRow]

/-- C10: when a target numeric fill column is entirely missing the fill
step is a no-op without error: the median of an all-missing column is the
NaN sentinel, and filling missing cells with NaN leaves them missing. -/
theorem C10_all_missing_noop (t : List Row) :
    ((∀ r ∈ t, r.unitsSold = PFloat.nan) →
      (cleanTable t).map (·.unitsSold) = t.map (·.unitsSold))
    ∧ ((∀ r ∈ t, r.customerRating = PFloat.nan) →
      (cleanTable t).map (·.customerRating) = t.map (·.customerRating)) := by
  constructor
  · intro h
    have hmed : colMedian (t.map (·.unitsSold)) = .nan := by
      unfold colMedian
      have : (t.map (·.unitsSold)).filterMap PFloat.toQ? = [] := by
        rw [List.filterMap_eq_nil_iff]
        intro a ha
        obtain ⟨r, hr, rfl⟩ := List.mem_map.mp ha
        rw [h r hr]
        rfl
      rw [this]
      rfl
    simp only [cleanTable, List.map_map]
    refine List.map_congr_left (fun r hr => ?_)
    simp [Function.comp, cleanRow, hmed, h r hr, fillna]
  · intro h
    have hmed : colMedian (t.map (·.customerRating)) = .nan := by
      unfold colMedian
      have : (t.map (·.customerRating)).filterMap PFloat.toQ? = [] := by
        rw [List.filterMap_eq_nil_iff]
        intro a ha
        obtain ⟨r, hr, rfl⟩ := List.mem_map.mp ha
        rw [h r hr]
        rfl
      rw [this]
      rfl
    simp only [cleanTable, List.map_map]
    refine List.map_congr_left (fun r hr => ?_)
    simp [Function.comp, cleanRow, hmed, h r hr, fillna]

/-- All-missing input table for the C10 witness. -/
def ceAllMissing : List Row :=
  [{ productId := "P1", productName := "N", category := some "C", subcategory := "S"
     unitsSold := .nan, unitPrice := .num 5, costPerUnit := .num 2
     customerRating := .nan, inventory := .num 1 },
   { productId := "P2", productName := "M", category := none, subcategory := "S"
     unitsSold := .nan, unitPrice := .num 3, costPerUnit := .num 1
     customerRating := .nan, inventory := .num 2 }]

/-- C10 witness: on a table whose Units Sold column is entirely missing,
the fill step leaves the column unchanged (still entirely missing). -/
theorem C10_all_missing_noop_witness :
    (cleanTable ceAllMissing).map (·.unitsSold) = ceAllMissing.map (·.unitsSold) :=
  (C10_all_missing_noop ceAllMissing).1 (by with_unfolding_all decide)

/-! Helper lemmas about the median and the fill step. -/

lemma length_insertSorted (a : ℚ) (l : List ℚ) :
    (insertSorted a l).length = l.length + 1 := by
  induction l with
  | nil => rfl
  | cons b l ih =>
    unfold insertSorted
    by_cases h : a ≤ b
    · simp [h]
    · simp [h, ih]

lemma length_sortQ (l : List ℚ) : (sortQ l).length = l.length := by
  induction l with
  | nil => rfl
  | cons a l ih =>
    show (insertSorted a (sortQ l)).length = l.length + 1
    rw [length_insertSorted, ih]

/-- The median of a nonempty list of rationals is a finite value. -/
lemma medianQ_num {l : List ℚ} (h : l ≠ []) : ∃ q : ℚ, medianQ l = .num q := by
  unfold medianQ
  have hlen : ¬(sortQ l).length = 0 := by
    rw [length_sortQ]
    simpa using h
  simp only [if_neg hlen]
  by_cases hodd : (sortQ l).length % 2 = 1
  · rw [if_pos hodd]
    exact ⟨_, rfl⟩
  · rw [if_neg hodd]
    exact ⟨_, rfl⟩

/-- The median of a column with at least one finite cell is finite. -/
lemma colMedian_num {xs : List PFloat} (h : ∃ q : ℚ, PFloat.num q ∈ xs) :
    ∃ m : ℚ, colMedian xs = .num m := by
  obtain ⟨q, hq⟩ := h
  have hmem : q ∈ xs.filterMap PFloat.toQ? := List.mem_filterMap.mpr ⟨.num q, hq, rfl⟩
  exact medianQ_num (List.ne_nil_of_mem hmem)

lemma zip_self_map {α β : Type} (f : α → β) :
    ∀ xs : List α, xs.zip (xs.map f) = xs.map (fun x => (x, f x)) := by
  intro xs
  induction xs with
  | nil => rfl
  | cons a xs ih => simp [ih]

/-- What the median fill of lines 30-32 guarantees for one column with at
least one present cell, `xs` the column before and `ys` after the fill:
no missing cell remains, present cells are unchanged, missing cells
receive the column median, and the median recomputed over the originally
present positions is unchanged. -/
def FillSpec (xs ys : List PFloat) : Prop :=
  (∀ y ∈ ys, y ≠ PFloat.nan)
  ∧ (∀ pr ∈ xs.zip ys, pr.1 ≠ PFloat.nan → pr.2 = pr.1)
  ∧ (∀ pr ∈ xs.zip ys, pr.1 = PFloat.nan → pr.2 = colMedian xs)
  ∧ medianQ ((xs.zip ys).filterMap
      (fun pr => if pr.1 = PFloat.nan then none else PFloat.toQ? pr.2))
      = medianQ (xs.filterMap PFloat.toQ?)

/-- The fill of one column satisfies `FillSpec` when the column has at
least one finite cell. -/
lemma fillColumn_spec {xs : List PFloat} (h : ∃ q : ℚ, PFloat.num q ∈ xs) :
    FillSpec xs (fillColumn xs) := by
  obtain ⟨m, hm⟩ := colMedian_num h
  have hfill : ∀ x : PFloat, x ≠ .nan → fillna (colMedian xs) x = x := by
    intro x hx
    cases x with
    | nan => exact absurd rfl hx
    | inf s => rfl
    | num q => rfl
  refine ⟨?_, ?_, ?_, ?_⟩
  · intro y hy
    obtain ⟨x, -, rfl⟩ := List.mem_map.mp hy
    cases x with
    | nan =>
      show fillna (colMedian xs) .nan ≠ .nan
      rw [show fillna (colMedian xs) .nan = colMedian xs from rfl, hm]
      simp
    | inf s => simp [fillna]
    | num q => simp [fillna]
  · intro pr hpr h1
    rw [fillColumn, zip_self_map] at hpr
    obtain ⟨x, -, rfl⟩ := List.mem_map.mp hpr
    exact hfill x h1
  · intro pr hpr h1
    rw [fillColumn, zip_self_map] at hpr
    obtain ⟨x, -, rfl⟩ := List.mem_map.mp hpr
    simp only at h1
    rw [h1]
    rfl
  · rw [fillColumn, zip_self_map, List.filterMap_map]
    have : ((fun pr : PFloat × PFloat => if pr.1 = PFloat.nan then none else PFloat.toQ? pr.2) ∘
        fun x => (x, fillna (colMedian xs) x)) = PFloat.toQ? := by
      funext x
      cases x with
      | nan => simp [Function.comp, PFloat.toQ?]
      | inf s => simp [Function.comp, fillna, PFloat.toQ?]
      | num q => simp [Function.comp, fillna, PFloat.toQ?]
    rw [this]

/-- The Units Sold column after cleaning is the filled Units Sold column. -/
lemma cleanTable_unitsSold (t : List Row) :
    (cleanTable t).map (·.unitsSold) = fillColumn (t.map (·.unitsSold)) := by
  simp [cleanTable, fillColumn, List.map_map, Function.comp, cleanRow]

/-- The Customer Rating column after cleaning is the filled column. -/
lemma cleanTable_customerRating (t : List Row) :
    (cleanTable t).map (·.customerRating) = fillColumn (t.map (·.customerRating)) := by
  simp [cleanTable, fillColumn, List.map_map, Function.comp, cleanRow]

/-- C7: on every input table whose Units Sold and Customer Rating columns
each have at least one present value, the fill step leaves no missing
entry in those columns, keeps every originally present entry unchanged,
replaces every originally missing entry by the column median over the
present values, and the median recomputed over the originally present
positions is unchanged. -/
theorem C7_fill_missing (t : List Row)
    (h1 : ∃ q : ℚ, PFloat.num q ∈ t.map (·.unitsSold))
    (h2 : ∃ q : ℚ, PFloat.num q ∈ t.map (·.customerRating)) :
    FillSpec (t.map (·.unitsSold)) ((cleanTable t).map (·.unitsSold))
    ∧ FillSpec (t.map (·.customerRating)) ((cleanTable t).map (·.customerRating)) := by
  rw [cleanTable_unitsSold, cleanTable_customerRating]
  exact ⟨fillColumn_spec h1, fillColumn_spec h2⟩

/-- Input table for the C7 witness: one missing Units Sold and one
missing Customer Rating among present values. -/
def wFillTable : List Row :=
  [{ productId := "P1", productName := "N", category := some "C", subcategory := "S"
     unitsSold := .num 10, unitPrice := .num 5, costPerUnit := .num 2
     customerRating := .nan, inventory := .num 1 },
   { productId := "P2", productName := "M", category := none, subcategory := "S"
     unitsSold := .nan, unitPrice := .num 3, costPerUnit := .num 1
     customerRating := .num 4, inventory := .num 2 },
   { productId := "P3", productName := "K", category := some "D", subcategory := "S"
     unitsSold := .num 20, unitPrice := .num 2, costPerUnit := .num 1
     customerRating := .num 5, inventory := .num 3 }]

/-- C7 witness: the fill specification evaluated on `wFillTable`. -/
theorem C7_fill_missing_witness :
    FillSpec (wFillTable.map (·.unitsSold)) ((cleanTable wFillTable).map (·.unitsSold))
    ∧ FillSpec (wFillTable.map (·.customerRating))
        ((cleanTable wFillTable).map (·.customerRating)) :=
  C7_fill_missing wFillTable ⟨10, by with_unfolding_all decide⟩
    ⟨4, by with_unfolding_all decide⟩

/-- What the `top_revenue` slice guarantees for a nonempty enriched table
with an all-present Total Revenue column: the slice is nonempty with
exactly min(10, row count) rows, its keys are present and non-increasing,
and it consists of maximal rows — the rest of the table completes it to a
permutation of the input and no remaining row has a larger key than any
returned row.  (Equal-key order is NOT original order in general: numpy's
default quicksort is unstable, see the counterexample.) -/
def TopSpec (t out : List EnrichedRow) : Prop :=
  0 < out.length
  ∧ out.length = min 10 t.length
  ∧ (out.map revQ).Pairwise optGE
  ∧ (∀ r ∈ out, (revQ r).isSome)
  ∧ ∃ rest, (out ++ rest).Perm t ∧ ∀ r ∈ rest, ∀ q ∈ out, optGE (revQ q) (revQ r)

/-- C5 (amended): for every nonempty enriched table with a numeric Total
Revenue column, the top-10-by-revenue slice of line 66 returns exactly
min(10, row count) rows in non-increasing Total Revenue order, and they
are 10 largest rows; the stable-tie-breaking part of the claim is dropped
(numpy's default quicksort gives no such guarantee, and violates it). -/
theorem C5_top_n_amended (t out : List EnrichedRow) (hne : t ≠ [])
    (hnum : ∀ r ∈ t, (revQ r).isSome) (h : TopRevenueRel t out) : TopSpec t out := by
  obtain ⟨s, ⟨hperm, hsort⟩, rfl⟩ := h
  have hlen : (s.take 10).length = min 10 t.length := by
    rw [List.length_take, hperm.length_eq]
  refine ⟨?_, hlen, ?_, ?_, ?_⟩
  · rw [hlen]
    have : 0 < t.length := List.length_pos.mpr hne
    omega
  · exact hsort.sublist ((List.take_sublist 10 s).map revQ)
  · intro r hr
    exact hnum r (hperm.mem_iff.mp (List.mem_of_mem_take hr))
  · refine ⟨s.drop 10, ?_, ?_⟩
    · rw [List.take_append_drop]
      exact hperm
    · intro r hr q hq
      have hsplit := List.pairwise_append.mp
        (by rw [← List.map_append, List.take_append_drop]; exact hsort :
          ((s.take 10).map revQ ++ (s.drop 10).map revQ).Pairwise optGE)
      exact hsplit.2.2 (revQ q) (List.mem_map_of_mem revQ hq) (revQ r)
        (List.mem_map_of_mem revQ hr)

/-- A second enriched row for the C5 witness, with Total Revenue 30. -/
def wEnr2 : EnrichedRow :=
  { productId := "P2", productName := "M", category := "C", subcategory := "S"
    unitsSold := .num 10, unitPrice := .num 3, costPerUnit := .num 1
    customerRating := .num 4, inventory := .num 5
    totalRevenue := .num 30, totalProfit := .num 20
    profitMargin := .num (200 / 3), inventoryTurnover := .num 2 }

/-- Two-row enriched table, already in descending revenue order. -/
def wTopTable : List EnrichedRow := [wEnr, wEnr2]

/-- C5 amended witness: the top-slice specification evaluated on
`wTopTable`, whose identity ordering is an admissible descending sort. -/
theorem C5_top_n_amended_witness : TopSpec wTopTable (wTopTable.take 10) :=
  C5_top_n_amended wTopTable (wTopTable.take 10) (by with_unfolding_all decide)
    (by with_unfolding_all decide)
    ⟨wTopTable, ⟨List.Perm.refl _, by with_unfolding_all decide⟩, rfl⟩

/-- One row of the 17-row tie table: every row has Total Revenue 6. -/
def stRow (pid : String) : Row :=
  { productId := pid, productName := "N", category := some "C", subcategory := "S"
    unitsSold := .num 1, unitPrice := .num 6, costPerUnit := .num 2
    customerRating := .num 5, inventory := .num 2 }

/-- Counterexample input for C5: 17 rows with identical Total Revenue.
17 rows force one quicksort partition pass (numpy switches to insertion
sort only at 16 or fewer), whose pivot swaps scramble the tie order. -/
def ceStable : List Row :=
  ["P00", "P01", "P02", "P03", "P04", "P05", "P06", "P07", "P08", "P09", "P10",
   "P11", "P12", "P13", "P14", "P15", "P16"].map stRow

/-- C5 counterexample: on a 17-row enriched table whose Total Revenue
keys are all equal (so stable tie-breaking would return the first ten
rows in original order), the concrete sort of line 66 — pandas `nargsort`
over numpy's quicksort kernel — returns the rows scrambled; the returned
slice is still an admissible descending sort, so it is exactly the
stable-tie-order conjunct of the claim that fails. -/
theorem C5_top_n_counterexample :
    (topRevenueExe (enrich ceStable)).map (·.productId) =
      ["P00", "P09", "P15", "P14", "P13", "P12", "P11", "P10", "P08", "P01"]
    ∧ (topRevenueExe (enrich ceStable)).map (·.productId) ≠
      ["P00", "P01", "P02", "P03", "P04", "P05", "P06", "P07", "P08", "P09"]
    ∧ (∀ r ∈ enrich ceStable, revQ r = some 6)
    ∧ TopRevenueRel (enrich ceStable) (topRevenueExe (enrich ceStable)) := by
  refine ⟨by with_unfolding_all decide, by with_unfolding_all decide,
    by with_unfolding_all decide,
    ⟨sortValuesDescExe (enrich ceStable), ⟨?_, ?_⟩, rfl⟩⟩
  · with_unfolding_all decide
  · with_unfolding_all decide

/-! Helper lemmas for the rollup: half-even rounding is monotone, so the
descending order by unrounded revenue carries over to the rounded table. -/

lemma floor_le_rhe (x : ℚ) : ⌊x⌋ ≤ rhe x := by
  unfold rhe
  split_ifs <;> omega

lemma rhe_le_floor_add_one (x : ℚ) : rhe x ≤ ⌊x⌋ + 1 := by
  unfold rhe
  split_ifs <;> omega

lemma rhe_mono {x y : ℚ} (h : x ≤ y) : rhe x ≤ rhe y := by
  rcases lt_or_eq_of_le (Int.floor_le_floor h) with hf | hf
  · have h1 := rhe_le_floor_add_one x
    have h2 := floor_le_rhe y
    omega
  · unfold rhe
    rw [← hf]
    have hfr : x - ⌊x⌋ ≤ y - ⌊x⌋ := by linarith
    split_ifs <;> first | omega | linarith

lemma round2Q_mono {a b : ℚ} (h : a ≤ b) : round2Q a ≤ round2Q b := by
  unfold round2Q
  have : rhe (a * 100) ≤ rhe (b * 100) :=
    rhe_mono (mul_le_mul_of_nonneg_right h (by norm_num))
  have hcast : ((rhe (a * 100) : ℚ)) ≤ ((rhe (b * 100) : ℚ)) := by exact_mod_cast this
  linarith

lemma optGE_map_round2 {a b : Option ℚ} (h : optGE a b) :
    optGE (a.map round2Q) (b.map round2Q) := by
  cases a with
  | none =>
    cases b with
    | none => exact h
    | some q => exact absurd h (by simp [optGE, optGEb])
  | some qa =>
    cases b with
    | none => rfl
    | some qb =>
      have : qb ≤ qa := by simpa [optGE, optGEb] using h
      simpa [optGE, optGEb] using round2Q_mono this

lemma rollupRevQ_roundRollup (r : RollupRow) :
    rollupRevQ (roundRollup r) = (rollupRevQ r).map round2Q := by
  cases h : r.Total_Revenue <;>
    simp [rollupRevQ, roundRollup, PFloat.round2, PFloat.toQ?, h]

lemma roundRollup_category (r : RollupRow) : (roundRollup r).category = r.category := rfl

lemma mkRollup_category (t : List EnrichedRow) (c : String) : (mkRollup t c).category = c := rfl

/-- What lines 75-79 guarantee for the `category_performance` table: one
row per distinct Category value of the enriched table, each row carrying
the NaN-skipping per-group sums of Total Revenue and Total Profit and the
per-group mean of Customer Rating rounded to 2 decimal places (half-even),
ordered non-increasingly by Total_Revenue. -/
def RollupSpec (t : List EnrichedRow) (out : List RollupRow) : Prop :=
  out.length = (categoriesOf t).length
  ∧ (out.map (·.category)).Perm (categoriesOf t)
  ∧ (∀ ro ∈ out, ∃ c ∈ categoriesOf t, ro = roundRollup (mkRollup t c))
  ∧ (∀ c ∈ categoriesOf t, roundRollup (mkRollup t c) ∈ out)
  ∧ (out.map rollupRevQ).Pairwise optGE

/-- C6 (amended): the category rollup has exactly one row per distinct
Category value of the enriched table, ordered descending by
Total_Revenue; its Total_Revenue / Total_Profit / Avg_Rating fields are
the per-group sums and mean ROUNDED to 2 decimal places by the
`round(2)` of line 79, not the exact sums and mean the claim states. -/
theorem C6_rollup_amended (t : List EnrichedRow) (out : List RollupRow)
    (h : CategoryPerformanceRel t out) : RollupSpec t out := by
  obtain ⟨s, hperm, hsort, rfl⟩ := h
  have hcats : (rollupRows t).map (·.category) = categoriesOf t := by
    rw [rollupRows, List.map_map]
    exact List.map_congr_left (fun c _ => mkRollup_category t c) |>.trans (List.map_id _)
  refine ⟨?_, ?_, ?_, ?_, ?_⟩
  · rw [List.length_map, hperm.length_eq, rollupRows, List.length_map]
  · have : (s.map roundRollup).map (·.category) = s.map (·.category) := by
      rw [List.map_map]
      exact List.map_congr_left (fun r _ => roundRollup_category r)
    rw [this, ← hcats]
    exact hperm.map _
  · intro ro hro
    obtain ⟨sr, hsr, rfl⟩ := List.mem_map.mp hro
    have : sr ∈ rollupRows t := hperm.mem_iff.mp hsr
    obtain ⟨c, hc, rfl⟩ := List.mem_map.mp this
    exact ⟨c, hc, rfl⟩
  · intro c hc
    have : mkRollup t c ∈ rollupRows t := List.mem_map_of_mem _ hc
    exact List.mem_map_of_mem roundRollup (hperm.mem_iff.mpr this)
  · have : (s.map roundRollup).map rollupRevQ = (s.map rollupRevQ).map (Option.map round2Q) := by
      rw [List.map_map, List.map_map]
      exact List.map_congr_left (fun r _ => rollupRevQ_roundRollup r)
    rw [this]
    exact hsort.map _ (fun a b => optGE_map_round2)

/-- Raw input for the C6 witness: two rows in different categories with
distinct revenues (50 and 30). -/
def wRawRollup : List Row :=
  [{ productId := "P1", productName := "N", category := some "A", subcategory := "S"
     unitsSold := .num 10, unitPrice := .num 5, costPerUnit := .num 2
     customerRating := .num 4, inventory := .num 2 },
   { productId := "P2", productName := "M", category := some "B", subcategory := "S"
     unitsSold := .num 10, unitPrice := .num 3, costPerUnit := .num 1
     customerRating := .num 4, inventory := .num 5 }]

/-- C6 amended witness: the rollup specification evaluated on the
enriched form of `wRawRollup`, whose identity rollup order (revenues
50, 30) is an admissible descending sort. -/
theorem C6_rollup_amended_witness :
    RollupSpec (enrich wRawRollup) ((rollupRows (enrich wRawRollup)).map roundRollup) :=
  C6_rollup_amended (enrich wRawRollup) ((rollupRows (enrich wRawRollup)).map roundRollup)
    ⟨rollupRows (enrich wRawRollup), List.Perm.refl _, by with_unfolding_all decide, rfl⟩

/-- Counterexample input for C6: three rows of one category with
Customer Ratings 4, 4, 5, whose mean 13/3 is not representable in 2
decimal places. -/
def ceRollup : List Row :=
  [{ productId := "P1", productName := "N", category := some "A", subcategory := "S"
     unitsSold := .num 1, unitPrice := .num 2, costPerUnit := .num 1
     customerRating := .num 4, inventory := .num 1 },
   { productId := "P2", productName := "M", category := some "A", subcategory := "S"
     unitsSold := .num 1, unitPrice := .num 2, costPerUnit := .num 1
     customerRating := .num 4, inventory := .num 1 },
   { productId := "P3", productName := "K", category := some "A", subcategory := "S"
     unitsSold := .num 1, unitPrice := .num 2, costPerUnit := .num 1
     customerRating := .num 5, inventory := .num 1 }]

/-- C6 counterexample: on the enriched `ceRollup` table the (unique)
admissible `category_performance` output stores Avg_Rating 4.33, while
the per-group mean of Customer Rating is 13/3 — the `round(2)` of line 79
makes the claim's "Avg_Rating is the per-group mean" false. -/
theorem C6_rollup_counterexample :
    CategoryPerformanceRel (enrich ceRollup)
      [{ category := "A", Total_Revenue := .num 6, Total_Profit := .num 3,
         Avg_Rating := .num (433 / 100) }]
    ∧ nanmean ((groupRows (enrich ceRollup) "A").map (·.customerRating)) = .num (13 / 3)
    ∧ PFloat.num (433 / 100) ≠ PFloat.num (13 / 3) := by
  refine ⟨⟨rollupRows (enrich ceRollup), List.Perm.refl _,
    by with_unfolding_all decide, by with_unfolding_all decide⟩,
    by with_unfolding_all decide, by with_unfolding_all decide⟩
